import Mathlib

set_option maxHeartbeats 1000000

/-!
Shallow embedding of the mango-v4 excerpt: the serum order wire-format adapter
(place_serum_order.rs), the token_deposit instruction (token_deposit.rs), the
address lookup table scan (address_lookup_table/mod.rs), and the state/health
module the instructions call into.  The state and error modules are not part of
the excerpt; their definitions below are modelled from the specification and
marked as such in their doc comments.  Byte strings are lists of naturals, with
each entry intended to be below 256 at use sites; machine integers are naturals
with explicit reductions modulo powers of two where the code truncates.
-/

/-- Little-endian interpretation of a byte list, least significant byte first. -/
def leVal (bs : List Nat) : Nat :=
  bs.foldr (fun b acc => b + 256 * acc) 0

/-- The 2-byte output of u16::to_le_bytes. -/
def u16le (n : Nat) : List Nat := [n % 256, n / 256 % 256]

/-- The 4-byte output of u32::to_le_bytes. -/
def u32le (n : Nat) : List Nat :=
  [n % 256, n / 256 % 256, n / 65536 % 256, n / 16777216 % 256]

/-- The 8-byte output of u64::to_le_bytes. -/
def u64le (n : Nat) : List Nat :=
  [n % 256, n / 256 % 256, n / 65536 % 256, n / 16777216 % 256,
   n / 4294967296 % 256, n / 1099511627776 % 256, n / 281474976710656 % 256,
   n / 72057594037927936 % 256]

theorem leVal_u16le (n : Nat) : leVal (u16le n) = n % 65536 := by
  simp only [leVal, u16le, List.foldr]
  omega

theorem leVal_u32le (n : Nat) : leVal (u32le n) = n % 4294967296 := by
  simp only [leVal, u32le, List.foldr]
  omega

theorem leVal_u64le (n : Nat) : leVal (u64le n) = n % 18446744073709551616 := by
  simp only [leVal, u64le, List.foldr]
  omega

/-- serum_dex::matching::Side, an external dependency enum with discriminants
Bid = 0 and Ask = 1 (repr u8, num_enum TryFromPrimitive). -/
inductive Side
  | bid
  | ask
deriving DecidableEq

/-- serum_dex::instruction::SelfTradeBehavior, an external dependency enum with
discriminants DecrementTake = 0, CancelProvide = 1, AbortTransaction = 2. -/
inductive SelfTradeBehavior
  | decrementTake
  | cancelProvide
  | abortTransaction
deriving DecidableEq

/-- serum_dex::matching::OrderType, an external dependency enum with
discriminants Limit = 0, ImmediateOrCancel = 1, PostOnly = 2. -/
inductive OrderType
  | limit
  | immediateOrCancel
  | postOnly
deriving DecidableEq

/-- The u8 discriminant of a Side value, as produced by the Into impl. -/
def Side.toU8 : Side → Nat
  | .bid => 0
  | .ask => 1

/-- Decoding a u32 into a Side: the source narrows the u32 with try_into to u8
and then applies try_from_primitive, so every value other than 0 and 1 fails. -/
def Side.fromU32 (n : Nat) : Option Side :=
  if n = 0 then some .bid else if n = 1 then some .ask else none

def SelfTradeBehavior.toU8 : SelfTradeBehavior → Nat
  | .decrementTake => 0
  | .cancelProvide => 1
  | .abortTransaction => 2

def SelfTradeBehavior.fromU32 (n : Nat) : Option SelfTradeBehavior :=
  if n = 0 then some .decrementTake
  else if n = 1 then some .cancelProvide
  else if n = 2 then some .abortTransaction
  else none

def OrderType.toU8 : OrderType → Nat
  | .limit => 0
  | .immediateOrCancel => 1
  | .postOnly => 2

def OrderType.fromU32 (n : Nat) : Option OrderType :=
  if n = 0 then some .limit
  else if n = 1 then some .immediateOrCancel
  else if n = 2 then some .postOnly
  else none

/-- serum_dex::instruction::NewOrderInstructionV3.  The three NonZeroU64 fields
are naturals here; their non-zeroness and 64-bit bounds are the validity
predicate below. -/
structure NewOrderInstructionV3 where
  side : Side
  limit_price : Nat
  max_coin_qty : Nat
  max_native_pc_qty_including_fees : Nat
  self_trade_behavior : SelfTradeBehavior
  order_type : OrderType
  client_order_id : Nat
  limit : Nat
deriving DecidableEq

/-- Representation invariant of a NewOrderInstructionV3 value: the NonZeroU64
fields are non-zero 64-bit values, the client id is a u64 and the limit a u16. -/
def ValidOrder (o : NewOrderInstructionV3) : Prop :=
  0 < o.limit_price ∧ o.limit_price < 18446744073709551616 ∧
  0 < o.max_coin_qty ∧ o.max_coin_qty < 18446744073709551616 ∧
  0 < o.max_native_pc_qty_including_fees ∧
  o.max_native_pc_qty_including_fees < 18446744073709551616 ∧
  o.client_order_id < 18446744073709551616 ∧ o.limit < 65536

instance (o : NewOrderInstructionV3) : Decidable (ValidOrder o) := by
  unfold ValidOrder
  exact inferInstance

/-- The BorshSerialize impl for NewOrderInstructionData: each enumerated field
is widened from its u8 discriminant to a 4-byte little-endian u32, the u64
fields take 8 bytes and the limit 2, in the order the source writes them. -/
def NewOrderInstructionV3.serialize (o : NewOrderInstructionV3) : List Nat :=
  u32le o.side.toU8 ++ u64le o.limit_price ++ u64le o.max_coin_qty ++
    u64le o.max_native_pc_qty_including_fees ++ u32le o.self_trade_behavior.toU8 ++
    u32le o.order_type.toU8 ++ u64le o.client_order_id ++ u16le o.limit

/-- mango-v3's deserialization code: splits the 46-byte array at offsets
4, 12, 20, 28, 32, 36, 44 and decodes each field, failing on an unknown
enum discriminant or on a zero price or quantity (NonZeroU64::new). -/
def unpack_dex_new_order_v3 (data : List Nat) : Option NewOrderInstructionV3 :=
  match Side.fromU32 (leVal (data.take 4)) with
  | none => none
  | some side =>
    if leVal ((data.drop 4).take 8) = 0 then none
    else if leVal ((data.drop 12).take 8) = 0 then none
    else if leVal ((data.drop 20).take 8) = 0 then none
    else
      match SelfTradeBehavior.fromU32 (leVal ((data.drop 28).take 4)) with
      | none => none
      | some stb =>
        match OrderType.fromU32 (leVal ((data.drop 32).take 4)) with
        | none => none
        | some ot =>
          some { side := side,
                 limit_price := leVal ((data.drop 4).take 8),
                 max_coin_qty := leVal ((data.drop 12).take 8),
                 max_native_pc_qty_including_fees := leVal ((data.drop 20).take 8),
                 self_trade_behavior := stb,
                 order_type := ot,
                 client_order_id := leVal ((data.drop 36).take 8),
                 limit := leVal ((data.drop 44).take 2) }

/-- Error kinds of std::io::Error as used by the deserializer. -/
inductive IoErrorKind
  | unexpectedEof
  | invalidInput
deriving DecidableEq

/-- Outcome of BorshDeserialize::deserialize: a Rust panic is a distinct
outcome from an io error return. -/
inductive DeserializeResult
  | panicked
  | ioError (kind : IoErrorKind)
  | ok (order : NewOrderInstructionV3) (rest : List Nat)
deriving DecidableEq

/-- The BorshDeserialize impl for NewOrderInstructionData.  The source indexes
buf with the range 0..46, which panics when the buffer is shorter than 46 bytes;
the UnexpectedEof mapping guards only the slice-to-array conversion, which can
no longer fail once the slice has length exactly 46.  A failed unpack becomes an
InvalidInput io error, and on success the buffer is advanced past the 46 bytes. -/
def NewOrderInstructionData.deserialize (buf : List Nat) : DeserializeResult :=
  if buf.length < 46 then .panicked
  else
    match unpack_dex_new_order_v3 (buf.take 46) with
    | none => .ioError .invalidInput
    | some o => .ok o (buf.drop 46)

theorem serialize_slice_side (o : NewOrderInstructionV3) :
    o.serialize.take 4 = u32le o.side.toU8 := rfl

theorem serialize_slice_price (o : NewOrderInstructionV3) :
    (o.serialize.drop 4).take 8 = u64le o.limit_price := rfl

theorem serialize_slice_coin (o : NewOrderInstructionV3) :
    (o.serialize.drop 12).take 8 = u64le o.max_coin_qty := rfl

theorem serialize_slice_pc (o : NewOrderInstructionV3) :
    (o.serialize.drop 20).take 8 = u64le o.max_native_pc_qty_including_fees := rfl

theorem serialize_slice_stb (o : NewOrderInstructionV3) :
    (o.serialize.drop 28).take 4 = u32le o.self_trade_behavior.toU8 := rfl

theorem serialize_slice_otype (o : NewOrderInstructionV3) :
    (o.serialize.drop 32).take 4 = u32le o.order_type.toU8 := rfl

theorem serialize_slice_client (o : NewOrderInstructionV3) :
    (o.serialize.drop 36).take 8 = u64le o.client_order_id := rfl

theorem serialize_slice_limit (o : NewOrderInstructionV3) :
    (o.serialize.drop 44).take 2 = u16le o.limit := rfl

theorem serialize_length (o : NewOrderInstructionV3) : o.serialize.length = 46 := by
  simp [NewOrderInstructionV3.serialize, u32le, u64le, u16le]

theorem Side.fromU32_mod_side_toU8 (s : Side) :
    Side.fromU32 (s.toU8 % 4294967296) = some s := by
  cases s <;> rfl

theorem SelfTradeBehavior.fromU32_mod_stb_toU8 (s : SelfTradeBehavior) :
    SelfTradeBehavior.fromU32 (s.toU8 % 4294967296) = some s := by
  cases s <;> rfl

theorem OrderType.fromU32_mod_otype_toU8 (t : OrderType) :
    OrderType.fromU32 (t.toU8 % 4294967296) = some t := by
  cases t <;> rfl

theorem unpack_serialize (o : NewOrderInstructionV3) (h : ValidOrder o) :
    unpack_dex_new_order_v3 o.serialize = some o := by
  obtain ⟨h1, h2, h3, h4, h5, h6, h7, h8⟩ := h
  simp only [unpack_dex_new_order_v3, serialize_slice_side, serialize_slice_price,
    serialize_slice_coin, serialize_slice_pc, serialize_slice_stb, serialize_slice_otype,
    serialize_slice_client, serialize_slice_limit, leVal_u32le, leVal_u64le, leVal_u16le,
    Side.fromU32_mod_side_toU8, SelfTradeBehavior.fromU32_mod_stb_toU8,
    OrderType.fromU32_mod_otype_toU8,
    Nat.mod_eq_of_lt h2, Nat.mod_eq_of_lt h4, Nat.mod_eq_of_lt h6, Nat.mod_eq_of_lt h7,
    Nat.mod_eq_of_lt h8, h1.ne', h3.ne', h5.ne', if_false]

/-- C5: encoding an order descriptor and decoding it again reproduces every
field exactly; but deserializing an input shorter than 46 bytes does not return
an io error: the range indexing buf[0..46] panics, so the claimed
error-not-panic behavior fails (the dead UnexpectedEof mapping in the source
shows the error return was the intent). -/
theorem new_order_roundtrip_but_short_input_panics :
    NewOrderInstructionData.deserialize (List.replicate 45 0) = .panicked ∧
    ∀ o : NewOrderInstructionV3, ValidOrder o →
      NewOrderInstructionData.deserialize o.serialize = .ok o [] := by
  constructor
  · rfl
  · intro o h
    unfold NewOrderInstructionData.deserialize
    rw [serialize_length]
    rw [if_neg (by omega)]
    have ht : o.serialize.take 46 = o.serialize := by
      conv => lhs; rw [← serialize_length o]
      exact List.take_length _
    rw [ht, unpack_serialize o h]
    rfl

/-- Witness for C5: a concrete valid order round-trips through the wire format. -/
theorem new_order_roundtrip_witness :
    NewOrderInstructionData.deserialize
      (NewOrderInstructionV3.mk .ask 100 2 3 .abortTransaction .postOnly 77 5).serialize =
      .ok (NewOrderInstructionV3.mk .ask 100 2 3 .abortTransaction .postOnly 77 5) [] :=
  new_order_roundtrip_but_short_input_panics.2
    (NewOrderInstructionV3.mk .ask 100 2 3 .abortTransaction .postOnly 77 5) (by decide)

/-- C6: the serialized order is exactly 46 bytes, and each field occupies the
claimed little-endian slice: bytes 0-3 the side discriminant widened to u32,
4-11 the limit price, 12-19 the max base quantity, 20-27 the max quote quantity
including fees, 28-31 the self-trade behavior, 32-35 the order type, 36-43 the
client order id, 44-45 the result limit. -/
theorem serialize_layout (o : NewOrderInstructionV3) (h : ValidOrder o) :
    o.serialize.length = 46 ∧
    leVal (o.serialize.take 4) = o.side.toU8 ∧
    leVal ((o.serialize.drop 4).take 8) = o.limit_price ∧
    leVal ((o.serialize.drop 12).take 8) = o.max_coin_qty ∧
    leVal ((o.serialize.drop 20).take 8) = o.max_native_pc_qty_including_fees ∧
    leVal ((o.serialize.drop 28).take 4) = o.self_trade_behavior.toU8 ∧
    leVal ((o.serialize.drop 32).take 4) = o.order_type.toU8 ∧
    leVal ((o.serialize.drop 36).take 8) = o.client_order_id ∧
    leVal ((o.serialize.drop 44).take 2) = o.limit := by
  obtain ⟨h1, h2, h3, h4, h5, h6, h7, h8⟩ := h
  have hs : o.side.toU8 < 4294967296 := by cases o.side <;> decide
  have hb : o.self_trade_behavior.toU8 < 4294967296 := by
    cases o.self_trade_behavior <;> decide
  have ho : o.order_type.toU8 < 4294967296 := by cases o.order_type <;> decide
  refine ⟨serialize_length o, ?_, ?_, ?_, ?_, ?_, ?_, ?_, ?_⟩
  · rw [serialize_slice_side, leVal_u32le, Nat.mod_eq_of_lt hs]
  · rw [serialize_slice_price, leVal_u64le, Nat.mod_eq_of_lt h2]
  · rw [serialize_slice_coin, leVal_u64le, Nat.mod_eq_of_lt h4]
  · rw [serialize_slice_pc, leVal_u64le, Nat.mod_eq_of_lt h6]
  · rw [serialize_slice_stb, leVal_u32le, Nat.mod_eq_of_lt hb]
  · rw [serialize_slice_otype, leVal_u32le, Nat.mod_eq_of_lt ho]
  · rw [serialize_slice_client, leVal_u64le, Nat.mod_eq_of_lt h7]
  · rw [serialize_slice_limit, leVal_u16le, Nat.mod_eq_of_lt h8]

/-- Witness for C6: the layout theorem applied to a concrete valid order. -/
theorem serialize_layout_witness :
    (NewOrderInstructionV3.mk .bid 9 1 1 .decrementTake .limit 0 1).serialize.length = 46 :=
  (serialize_layout (NewOrderInstructionV3.mk .bid 9 1 1 .decrementTake .limit 0 1)
    (by decide)).1

/-- C7: a 46-byte payload whose limit-price field or either quantity field is
zero is rejected as malformed: unpack_dex_new_order_v3 returns none, and
deserialize turns that into an InvalidInput io error. -/
theorem unpack_rejects_zero_fields (buf : List Nat) (hlen : buf.length = 46)
    (hz : leVal ((buf.drop 4).take 8) = 0 ∨ leVal ((buf.drop 12).take 8) = 0 ∨
      leVal ((buf.drop 20).take 8) = 0) :
    unpack_dex_new_order_v3 buf = none ∧
    NewOrderInstructionData.deserialize buf = .ioError .invalidInput := by
  have hu : unpack_dex_new_order_v3 buf = none := by
    unfold unpack_dex_new_order_v3
    rcases hz with h | h | h
    · cases Side.fromU32 (leVal (buf.take 4)) <;> simp [h]
    · cases Side.fromU32 (leVal (buf.take 4)) <;>
        by_cases h1 : leVal ((buf.drop 4).take 8) = 0 <;> simp [h, h1]
    · cases Side.fromU32 (leVal (buf.take 4)) <;>
        by_cases h1 : leVal ((buf.drop 4).take 8) = 0 <;>
        by_cases h2 : leVal ((buf.drop 12).take 8) = 0 <;> simp [h, h1, h2]
  refine ⟨hu, ?_⟩
  unfold NewOrderInstructionData.deserialize
  rw [hlen, if_neg (by omega)]
  have ht : buf.take 46 = buf := by
    conv => lhs; rw [← hlen]
    exact List.take_length _
  rw [ht, hu]

/-- Witness for C7: the all-zero 46-byte payload is rejected as malformed. -/
theorem unpack_rejects_zero_fields_witness :
    unpack_dex_new_order_v3 (List.replicate 46 0) = none ∧
    NewOrderInstructionData.deserialize (List.replicate 46 0) = .ioError .invalidInput :=
  unpack_rejects_zero_fields (List.replicate 46 0) (by decide) (Or.inl (by decide))

/-- The serialized size of lookup table metadata (LOOKUP_TABLE_META_SIZE). -/
def LOOKUP_TABLE_META_SIZE : Nat := 56

/-- The byte size of a Pubkey (PUBKEY_BYTES). -/
def PUBKEY_BYTES : Nat := 32

/-- Splitting a byte region into consecutive 32-byte public keys, the view that
bytemuck::try_cast_slice produces when the region length divides evenly. -/
def chunks32 (l : List Nat) : List (List Nat) :=
  if h : l = [] then []
  else l.take 32 :: chunks32 (l.drop 32)
termination_by l.length
decreasing_by
  simp only [List.length_drop]
  have := List.length_pos.mpr h
  omega

theorem chunks32_nil : chunks32 [] = [] := by
  rw [chunks32]
  simp

theorem chunks32_cons (l : List Nat) (h : l ≠ []) :
    chunks32 l = l.take 32 :: chunks32 (l.drop 32) := by
  rw [chunks32]
  simp [h]

/-- addresses from address_lookup_table/mod.rs: the table bytes past the 56-byte
metadata, cast to a pubkey slice.  none models a panic: the range indexing
table[56..] panics when the table is shorter than the metadata, and the unwrap
of try_cast_slice panics when the remaining length is not a multiple of 32. -/
def addresses (table : List Nat) : Option (List (List Nat)) :=
  if table.length < LOOKUP_TABLE_META_SIZE then none
  else
    let rest := table.drop LOOKUP_TABLE_META_SIZE
    if rest.length % PUBKEY_BYTES = 0 then some (chunks32 rest) else none

/-- contains from address_lookup_table/mod.rs: whether some address in the
table equals the pubkey; none models the panic inherited from addresses. -/
def contains (table : List Nat) (pubkey : List Nat) : Option Bool :=
  (addresses table).map (fun as => as.any (fun addr => addr == pubkey))

theorem mem_chunks32_aux (x : List Nat) (n : Nat) : ∀ l : List Nat, l.length ≤ n →
    l.length % 32 = 0 →
    (x ∈ chunks32 l ↔ ∃ i, i < l.length / 32 ∧ x = (l.drop (32 * i)).take 32) := by
  induction n with
  | zero =>
    intro l hl _
    have : l = [] := List.eq_nil_of_length_eq_zero (by omega)
    subst this
    simp [chunks32_nil]
  | succ n ih =>
    intro l hl hm
    by_cases hnil : l = []
    · subst hnil
      simp [chunks32_nil]
    · have hpos : 0 < l.length := List.length_pos.mpr hnil
      have h32 : 32 ≤ l.length := by omega
      have hdl : (l.drop 32).length = l.length - 32 := by simp
      have ihd := ih (l.drop 32) (by omega) (by omega)
      rw [chunks32_cons l hnil]
      constructor
      · intro hx
        rcases List.mem_cons.mp hx with hx | hx
        · exact ⟨0, by omega, by simpa using hx⟩
        · obtain ⟨i, hi, hxi⟩ := ihd.mp hx
          refine ⟨i + 1, by omega, ?_⟩
          have e : 32 + 32 * i = 32 * (i + 1) := by omega
          rw [hxi, List.drop_drop, e]
      · rintro ⟨i, hi, hxi⟩
        cases i with
        | zero =>
          apply List.mem_cons.mpr
          left
          simpa using hxi
        | succ j =>
          apply List.mem_cons.mpr
          right
          apply ihd.mpr
          refine ⟨j, by omega, ?_⟩
          have e : 32 + 32 * j = 32 * (j + 1) := by omega
          rw [hxi, List.drop_drop, e]

theorem mem_chunks32 (x l : List Nat) (hm : l.length % 32 = 0) :
    x ∈ chunks32 l ↔ ∃ i, i < l.length / 32 ∧ x = (l.drop (32 * i)).take 32 :=
  mem_chunks32_aux x l.length l (Nat.le_refl _) hm

/-- C10: for a table of at least 56 bytes whose address region is a whole
number of 32-byte keys, contains answers membership among the consecutive keys
at offset 56; when the region length is not a multiple of 32 the cast unwrap
panics, so contains is not total there. -/
theorem contains_iff_key_member (t pk : List Nat) (hlen : 56 ≤ t.length) :
    ((t.length - 56) % 32 = 0 →
      (contains t pk = some true ↔
        ∃ i, i < (t.length - 56) / 32 ∧ pk = (t.drop (56 + 32 * i)).take 32)) ∧
    ((t.length - 56) % 32 ≠ 0 → contains t pk = none) := by
  have hdl : (t.drop 56).length = t.length - 56 := by simp
  constructor
  · intro hm
    unfold contains addresses LOOKUP_TABLE_META_SIZE PUBKEY_BYTES
    rw [if_neg (by omega), if_pos (by omega)]
    simp only [Option.map_some', Option.some.injEq]
    rw [List.any_eq_true]
    constructor
    · rintro ⟨a, ha, hbeq⟩
      have ha' := (mem_chunks32 a (t.drop 56) (by omega)).mp ha
      obtain ⟨i, hi, hai⟩ := ha'
      refine ⟨i, by omega, ?_⟩
      have hapk : a = pk := by simpa using hbeq
      rw [← hapk, hai, List.drop_drop]
    · rintro ⟨i, hi, hpki⟩
      refine ⟨pk, ?_, by simp⟩
      apply (mem_chunks32 pk (t.drop 56) (by omega)).mpr
      refine ⟨i, by omega, ?_⟩
      rw [List.drop_drop, hpki]
  · intro hm
    unfold contains addresses LOOKUP_TABLE_META_SIZE PUBKEY_BYTES
    rw [if_neg (by omega), if_neg (by omega)]
    rfl

/-- Witness for C10: a 88-byte table holding one key at offset 56 contains it. -/
theorem contains_iff_key_member_witness :
    contains (List.replicate 56 0 ++ (List.replicate 31 0 ++ [7]))
      (List.replicate 31 0 ++ [7]) = some true :=
  ((contains_iff_key_member (List.replicate 56 0 ++ (List.replicate 31 0 ++ [7]))
      (List.replicate 31 0 ++ [7]) (by decide)).1 (by decide)).mpr
    ⟨0, by decide, by decide⟩

/-- One account's stake in one bank (TokenPosition): token index, signed
scaled-balance amount, active flag.  Amounts are exact rationals standing for
the fixed-point I80F48 values; the representable range is enforced by the
overflow check in Bank.deposit. -/
structure TokenPosition where
  token_index : Nat
  amount : ℚ
  is_active : Bool
deriving DecidableEq

/-- MangoAccount: the bankruptcy flag (a u8 compared against 0 by the source)
and the bounded collection of token position slots. -/
structure MangoAccount where
  is_bankrupt : Nat
  tokens : List TokenPosition
deriving DecidableEq

/-- Modelled from the spec: the source's state module (Bank, §3) is not in the
excerpt.  Bank holds per-token-market pooled totals, scaling indexes and risk
weights. -/
structure Bank where
  token_index : Nat
  deposit_index : ℚ
  borrow_index : ℚ
  init_asset_weight : ℚ
  init_liab_weight : ℚ
  maint_asset_weight : ℚ
  maint_liab_weight : ℚ
  total_deposits : ℚ
  total_borrows : ℚ
deriving DecidableEq

/-- Modelled from the spec: the repository's error module is not in the
excerpt.  The taxonomy of §7 names each rejection site (the source files use
the placeholder variant SomeError at several of those sites and IsBankrupt for
the bankruptcy gate); failures of the external transfer and matching-venue
collaborators get their own variants so their synchronous propagation is
observable. -/
inductive MangoError
  | invalidInput
  | positionLimitExceeded
  | missingBank
  | arithmeticOverflow
  | insufficientHealth
  | isBankrupt
  | transferFailed
  | venueFailed
deriving DecidableEq

/-- Index of the first slot satisfying the predicate, together with the slot. -/
def findSlot (pr : TokenPosition → Bool) : List TokenPosition → Option (Nat × TokenPosition)
  | [] => none
  | x :: rest =>
    if pr x then some (0, x)
    else (findSlot pr rest).map (fun ip => (ip.1 + 1, ip.2))

theorem findSlot_spec (pr : TokenPosition → Bool) :
    ∀ (l : List TokenPosition) (i : Nat) (x : TokenPosition),
      findSlot pr l = some (i, x) → l[i]? = some x ∧ pr x = true := by
  intro l
  induction l with
  | nil => intro i x hfind; simp [findSlot] at hfind
  | cons y rest ih =>
    intro i x hfind
    unfold findSlot at hfind
    by_cases hy : pr y
    · rw [if_pos hy] at hfind
      have hpair := Option.some_inj.mp hfind
      have hi : i = 0 := (Prod.ext_iff.mp hpair.symm).1
      have hx : x = y := (Prod.ext_iff.mp hpair.symm).2
      subst hi
      subst hx
      exact ⟨by simp, hy⟩
    · rw [if_neg hy] at hfind
      cases hrec : findSlot pr rest with
      | none => rw [hrec] at hfind; simp at hfind
      | some ip =>
        rw [hrec] at hfind
        simp only [Option.map_some', Option.some_inj] at hfind
        have hi : i = ip.1 + 1 := (Prod.ext_iff.mp hfind).1.symm
        have hx : x = ip.2 := (Prod.ext_iff.mp hfind).2.symm
        subst hi
        subst hx
        obtain ⟨hg, hp⟩ := ih ip.1 ip.2 (by rw [hrec])
        refine ⟨?_, hp⟩
        simpa using hg

/-- Modelled from the spec: the position ledger's get_or_create (§4.1) is not
in the excerpt.  Returns the existing active position for the token index if
present, otherwise claims the first inactive slot and makes it active with
amount 0; fails with PositionLimitExceeded when neither exists.  Returns the
account, the position at the slot and its index. -/
def get_mut_or_create (a : MangoAccount) (ti : Nat) :
    Except MangoError (MangoAccount × TokenPosition × Nat) :=
  match findSlot (fun p => p.is_active && p.token_index == ti) a.tokens with
  | some (i, p) => .ok (a, p, i)
  | none =>
    match findSlot (fun p => !p.is_active) a.tokens with
    | some (i, _) =>
      .ok ({ a with tokens := a.tokens.set i ⟨ti, 0, true⟩ }, ⟨ti, 0, true⟩, i)
    | none => .error .positionLimitExceeded

/-- Modelled from the spec: the position ledger's deactivate (§4.1) is not in
the excerpt.  Marks the slot inactive without re-checking the amount; the
caller is responsible for the timing. -/
def deactivate (a : MangoAccount) (i : Nat) : MangoAccount :=
  match a.tokens[i]? with
  | some p => { a with tokens := a.tokens.set i { p with is_active := false } }
  | none => a

/-- Modelled from the spec: the bank accrual state's deposit (§4.2) is not in
the excerpt.  Converts the raw amount to scaled units via the current deposit
index, adds it to the position's signed balance (possibly crossing zero),
updates the pooled totals accordingly, and reports whether the resulting
balance is non-zero.  A zero raw amount is InvalidInput and a result outside
the I80F48 range (magnitude at least 2^79) is ArithmeticOverflow. -/
def Bank.deposit (b : Bank) (p : TokenPosition) (nativeAmount : ℚ) :
    Except MangoError (Bank × TokenPosition × Bool) :=
  if nativeAmount = 0 then .error .invalidInput
  else
    let change := nativeAmount / b.deposit_index
    let newAmount := p.amount + change
    if (2 : ℚ) ^ 79 ≤ |newAmount| then .error .arithmeticOverflow
    else
      let b' := { b with
        total_deposits := b.total_deposits + max newAmount 0 - max p.amount 0,
        total_borrows := b.total_borrows + max (-newAmount) 0 - max (-p.amount) 0 }
      .ok (b', { p with amount := newAmount }, decide (newAmount ≠ 0))

/-- Health type selecting the weight table (§4.3): Init is the stricter
pre-operation table, Maint the ongoing-solvency table. -/
inductive HealthType
  | init
  | maint
deriving DecidableEq

/-- One bank-and-oracle-price pair from the remaining accounts. -/
structure BankOraclePair where
  bank : Bank
  price : ℚ
deriving DecidableEq

/-- Weight selected by the health type and the sign of the amount (§4.3). -/
def weightFor (b : Bank) (ht : HealthType) (amount : ℚ) : ℚ :=
  match ht with
  | .init => if 0 ≤ amount then b.init_asset_weight else b.init_liab_weight
  | .maint => if 0 ≤ amount then b.maint_asset_weight else b.maint_liab_weight

/-- Scaled-to-native conversion by the bank's index for the amount's sign. -/
def nativeUnits (b : Bank) (amount : ℚ) : ℚ :=
  amount * (if 0 ≤ amount then b.deposit_index else b.borrow_index)

/-- Contribution of one position to health (§4.3). -/
def healthContribution (pr : BankOraclePair) (ht : HealthType) (amount : ℚ) : ℚ :=
  nativeUnits pr.bank amount * pr.price * weightFor pr.bank ht amount

/-- First pair whose bank has the given token index (the find? of §4.3). -/
def findPair (ti : Nat) : List BankOraclePair → Option BankOraclePair
  | [] => none
  | pr :: rest => if pr.bank.token_index = ti then some pr else findPair ti rest

/-- Sum of the contributions of the active positions, failing with MissingBank
when an active position has no matching bank-and-price pair. -/
def healthSum (ht : HealthType) (pairs : List BankOraclePair) :
    List TokenPosition → Except MangoError ℚ
  | [] => .ok 0
  | p :: rest =>
    if p.is_active then
      match findPair p.token_index pairs with
      | none => .error .missingBank
      | some pr =>
        match healthSum ht pairs rest with
        | .error e => .error e
        | .ok s => .ok (healthContribution pr ht p.amount + s)
    else healthSum ht pairs rest

/-- Modelled from the spec: the health engine's compute_health (§4.3) is not
in the excerpt.  Risk-weighted portfolio-wide net value over every active
position of the account. -/
def compute_health (a : MangoAccount) (ht : HealthType) (pairs : List BankOraclePair) :
    Except MangoError ℚ :=
  healthSum ht pairs a.tokens

/-- compute_health_from_fixed_accounts as called by token_deposit: the health
engine over the bank/oracle pairs supplied as remaining accounts. -/
def compute_health_from_fixed_accounts (a : MangoAccount) (ht : HealthType)
    (pairs : List BankOraclePair) : Except MangoError ℚ :=
  compute_health a ht pairs

/-- Side effects of token_deposit that can complete before its result, in the
order the source performs them: the bank/position mutation, the external token
transfer into the vault, the successful return of the health computation, and
the deactivation of the touched slot. -/
inductive Event
  | bankDeposit
  | transfer
  | healthCheck
  | deactivate
deriving DecidableEq

/-- The accounts token_deposit touches: the mango account, the target bank, the
vault and user token account balances, and the remaining accounts carrying the
bank/oracle pairs for the health computation. -/
structure DepositState where
  account : MangoAccount
  bank : Bank
  vault : Nat
  token_account : Nat
  remaining_accounts : List BankOraclePair
deriving DecidableEq

/-- token_deposit from src/.../token_deposit.rs over the modelled state.
Mirrors the source order: the amount gate, the bankruptcy gate, position
lookup/creation, bank.deposit, the token transfer (failing when the user
account lacks the funds), the health computation for HealthType Init — whose
value the source only logs, without comparing it against zero — and finally the
deactivation of the slot when bank.deposit reported the position inactive.
The second component is the trace of completed side effects. -/
def token_deposit (st : DepositState) (amount : Nat) :
    Except MangoError DepositState × List Event :=
  if amount = 0 then (.error .invalidInput, [])
  else if st.account.is_bankrupt ≠ 0 then (.error .isBankrupt, [])
  else
    match get_mut_or_create st.account st.bank.token_index with
    | .error e => (.error e, [])
    | .ok (acc1, p, i) =>
      match st.bank.deposit p (amount : ℚ) with
      | .error e => (.error e, [])
      | .ok (bank1, p1, position_is_active) =>
        let acc2 := { acc1 with tokens := acc1.tokens.set i p1 }
        if st.token_account < amount then (.error .transferFailed, [.bankDeposit])
        else
          match compute_health_from_fixed_accounts acc2 .init st.remaining_accounts with
          | .error e => (.error e, [.bankDeposit, .transfer])
          | .ok _health =>
            let acc3 := if position_is_active then acc2 else deactivate acc2 i
            (.ok { st with
                     account := acc3,
                     bank := bank1,
                     vault := st.vault + amount,
                     token_account := st.token_account - amount },
             [.bankDeposit, .transfer, .healthCheck] ++
               (if position_is_active then [] else [.deactivate]))

/-- Which vault is handed to the venue as order payer. -/
inductive OrderPayer
  | baseVault
  | quoteVault
deriving DecidableEq

/-- The order payer selection of place_serum_order: the base vault pays an Ask,
the quote vault pays a Bid. -/
def orderPayerForSide : Side → OrderPayer
  | .ask => .baseVault
  | .bid => .quoteVault

/-- The accounts place_serum_order touches, with the venue's synchronous
accept/reject outcome as an explicit input (the cross-program call is a black
box whose failure aborts the operation). -/
structure PlaceOrderState where
  account : MangoAccount
  remaining_accounts : List BankOraclePair
  venue_accepts : Bool
deriving DecidableEq

/-- place_serum_order from src/.../place_serum_order.rs over the modelled
state: selects the order payer vault from the order side, submits the order to
the external venue (failure propagates), reloads the account, computes health
over the remaining accounts — Init weights per §4.3 — and requires it to be
non-negative.  There is no bankruptcy check in this handler.  On success the
returned pair carries the state and the payer vault that was handed to the
venue. -/
def place_serum_order (st : PlaceOrderState) (order : NewOrderInstructionV3) :
    Except MangoError (PlaceOrderState × OrderPayer) :=
  let order_payer_token_account := orderPayerForSide order.side
  if st.venue_accepts = false then .error .venueFailed
  else
    match compute_health st.account .init st.remaining_accounts with
    | .error e => .error e
    | .ok health =>
      if health < 0 then .error .insufficientHealth
      else .ok (st, order_payer_token_account)

/-- Deactivation safety (§8): every inactive slot carries a zero amount. -/
def deactivationSafe (a : MangoAccount) : Prop :=
  ∀ p ∈ a.tokens, p.is_active = false → p.amount = 0

instance (a : MangoAccount) : Decidable (deactivationSafe a) := by
  unfold deactivationSafe
  exact inferInstance

/-- Temporal ordering of a token_deposit trace: a completed health computation
is preceded by the completed transfer, and a deactivation is preceded by a
completed health computation. -/
def orderedEvents (tr : List Event) : Prop :=
  (Event.healthCheck ∈ tr →
    Event.transfer ∈ tr ∧ tr.indexOf Event.transfer < tr.indexOf Event.healthCheck) ∧
  (Event.deactivate ∈ tr →
    Event.healthCheck ∈ tr ∧ tr.indexOf Event.healthCheck < tr.indexOf Event.deactivate)

instance (tr : List Event) : Decidable (orderedEvents tr) := by
  unfold orderedEvents
  exact inferInstance

/-- A bank with unit indexes, unit weights and zero totals, for witnesses. -/
def unitBank : Bank :=
  { token_index := 0, deposit_index := 1, borrow_index := 1,
    init_asset_weight := 1, init_liab_weight := 1,
    maint_asset_weight := 1, maint_liab_weight := 1,
    total_deposits := 0, total_borrows := 0 }

/-- The unit bank for token index 1. -/
def unitBank1 : Bank := { unitBank with token_index := 1 }

/-- A minimal syntactically valid order (Bid side). -/
def sampleOrder : NewOrderInstructionV3 :=
  { side := .bid, limit_price := 1, max_coin_qty := 1,
    max_native_pc_qty_including_fees := 1, self_trade_behavior := .decrementTake,
    order_type := .limit, client_order_id := 0, limit := 1 }

/-- The sample order on the Ask side. -/
def sampleAskOrder : NewOrderInstructionV3 := { sampleOrder with side := .ask }

/-- C8: token_deposit with a zero amount fails with InvalidInput on every
state — also on states where the later position lookup, bank mutation, or
transfer would fail differently — and the empty trace records that no side
effect completed before the rejection. -/
theorem token_deposit_rejects_zero_amount (st : DepositState) :
    token_deposit st 0 = (.error .invalidInput, []) := by
  unfold token_deposit
  simp

/-- C2 (amended part): token_deposit on an account with the bankruptcy flag
set fails with IsBankrupt before any side effect, for every non-zero amount. -/
theorem token_deposit_rejects_bankrupt (st : DepositState) (amount : Nat)
    (hpos : 0 < amount) (hb : st.account.is_bankrupt ≠ 0) :
    token_deposit st amount = (.error .isBankrupt, []) := by
  unfold token_deposit
  rw [if_neg (by omega), if_pos hb]

/-- A bankrupt account state for the token_deposit bankruptcy witness. -/
def bankruptDepositState : DepositState :=
  { account := { is_bankrupt := 1, tokens := [] },
    bank := unitBank, vault := 0, token_account := 10, remaining_accounts := [] }

/-- Witness for C2: the bankruptcy gate fires on a concrete bankrupt account. -/
theorem token_deposit_rejects_bankrupt_witness :
    token_deposit bankruptDepositState 1 = (.error .isBankrupt, []) :=
  token_deposit_rejects_bankrupt bankruptDepositState 1 (by decide) (by decide)

/-- A bankrupt account state handed to place_serum_order. -/
def bankruptPlaceState : PlaceOrderState :=
  { account := { is_bankrupt := 1, tokens := [] },
    remaining_accounts := [], venue_accepts := true }

/-- Counterexample for C2: place_serum_order has no bankruptcy gate — on an
account with the bankruptcy flag set the trade proceeds and succeeds. -/
theorem place_serum_order_ignores_bankruptcy :
    bankruptPlaceState.account.is_bankrupt = 1 ∧
    place_serum_order bankruptPlaceState sampleOrder =
      .ok (bankruptPlaceState, .quoteVault) :=
  ⟨rfl, rfl⟩

/-- C1 (amended part): place_serum_order fails when the post-trade Init health
is negative (the source raises its placeholder error at the health gate, named
InsufficientHealth by the spec taxonomy). -/
theorem place_serum_order_rejects_negative_health (st : PlaceOrderState)
    (order : NewOrderInstructionV3) (h : ℚ)
    (hv : st.venue_accepts = true)
    (hh : compute_health st.account .init st.remaining_accounts = .ok h)
    (hneg : h < 0) :
    place_serum_order st order = .error .insufficientHealth := by
  simp [place_serum_order, hv, hh, hneg]

/-- A state whose account carries an uncovered borrow: Init health is -10. -/
def negHealthPlaceState : PlaceOrderState :=
  { account := { is_bankrupt := 0, tokens := [⟨0, -10, true⟩] },
    remaining_accounts := [⟨unitBank, 1⟩], venue_accepts := true }

/-- Witness for C1: the health gate of place_serum_order fires at health -10. -/
theorem place_serum_order_rejects_negative_health_witness :
    place_serum_order negHealthPlaceState sampleOrder = .error .insufficientHealth :=
  place_serum_order_rejects_negative_health negHealthPlaceState sampleOrder (-10)
    rfl
    (by norm_num [compute_health, healthSum, negHealthPlaceState, unitBank,
      healthContribution, nativeUnits, weightFor, findPair])
    (by norm_num)

/-- A deposit state whose account carries a large borrow in another token, so
that Init health stays negative after the deposit. -/
def negHealthDepositState : DepositState :=
  { account := { is_bankrupt := 0, tokens := [⟨1, -1000, true⟩, ⟨0, 0, false⟩] },
    bank := unitBank,
    vault := 0,
    token_account := 10,
    remaining_accounts := [⟨unitBank1, 1⟩, ⟨unitBank, 1⟩] }

/-- Counterexample for C1: token_deposit succeeds although the Init health of
the resulting account is -995 — the handler computes the health but never
compares it against zero, so a health-negative deposit is not rejected. -/
theorem token_deposit_accepts_negative_health :
    ((token_deposit negHealthDepositState 5).1.map (fun st =>
        compute_health st.account .init st.remaining_accounts)) = .ok (.ok (-995)) ∧
    ((-995 : ℚ) < 0) := by
  refine ⟨?_, by norm_num⟩
  norm_num [token_deposit, negHealthDepositState, get_mut_or_create, findSlot,
    Bank.deposit, compute_health_from_fixed_accounts, compute_health, healthSum,
    healthContribution, nativeUnits, weightFor, findPair, deactivate, unitBank,
    unitBank1, abs, Except.map]

/-- C9: for every successful run of place_serum_order, the payer vault handed
to the venue is the base vault exactly for an Ask order, and hence the quote
vault exactly for a Bid order. -/
theorem place_serum_order_payer_by_side (st : PlaceOrderState)
    (order : NewOrderInstructionV3) (res : PlaceOrderState × OrderPayer)
    (hok : place_serum_order st order = .ok res) :
    (res.2 = .baseVault ↔ order.side = .ask) ∧
    (res.2 = .quoteVault ↔ order.side = .bid) := by
  simp only [place_serum_order] at hok
  split at hok
  · exact absurd hok (by simp)
  · split at hok
    · exact absurd hok (by simp)
    · split at hok
      · exact absurd hok (by simp)
      · simp only [Except.ok.injEq] at hok
        subst hok
        cases horder : order.side <;> simp [orderPayerForSide, horder]

/-- A solvent empty account state for the payer-selection witness. -/
def healthyPlaceState : PlaceOrderState :=
  { account := { is_bankrupt := 0, tokens := [] },
    remaining_accounts := [], venue_accepts := true }

/-- Witness for C9: a concrete Ask order is paid from the base vault. -/
theorem place_serum_order_payer_by_side_witness :
    (((healthyPlaceState, OrderPayer.baseVault) : PlaceOrderState × OrderPayer).2 =
        .baseVault ↔ sampleAskOrder.side = .ask) ∧
    (((healthyPlaceState, OrderPayer.baseVault) : PlaceOrderState × OrderPayer).2 =
        .quoteVault ↔ sampleAskOrder.side = .bid) :=
  place_serum_order_payer_by_side healthyPlaceState sampleAskOrder
    (healthyPlaceState, .baseVault) rfl

theorem token_deposit_trace_shapes (st : DepositState) (amount : Nat) :
    (token_deposit st amount).2 = [] ∨
    (token_deposit st amount).2 = [.bankDeposit] ∨
    (token_deposit st amount).2 = [.bankDeposit, .transfer] ∨
    (token_deposit st amount).2 = [.bankDeposit, .transfer, .healthCheck] ∨
    (token_deposit st amount).2 =
      [.bankDeposit, .transfer, .healthCheck, .deactivate] := by
  simp only [token_deposit]
  repeat' split
  all_goals simp

/-- C4: in every run of token_deposit, a completed health computation is
strictly preceded by the completed external transfer, and the deactivation of
the touched slot happens (if at all) only strictly after the health computation
returned. -/
theorem token_deposit_event_order (st : DepositState) (amount : Nat) :
    orderedEvents (token_deposit st amount).2 := by
  rcases token_deposit_trace_shapes st amount with h | h | h | h | h <;> rw [h] <;> decide

/-- A plain solvent deposit state for the event-order witness. -/
def plainDepositState : DepositState :=
  { account := { is_bankrupt := 0, tokens := [⟨0, 0, false⟩] },
    bank := unitBank, vault := 0, token_account := 10,
    remaining_accounts := [⟨unitBank, 1⟩] }

/-- Witness for C4: the ordering holds on a concrete deposit run. -/
theorem token_deposit_event_order_witness :
    orderedEvents (token_deposit plainDepositState 5).2 :=
  token_deposit_event_order plainDepositState 5

theorem get_mut_or_create_ok (a : MangoAccount) (ti : Nat) (a1 : MangoAccount)
    (p : TokenPosition) (i : Nat) (hsafe : deactivationSafe a)
    (hok : get_mut_or_create a ti = .ok (a1, p, i)) :
    deactivationSafe a1 ∧ p.is_active = true ∧ a1.tokens[i]? = some p := by
  unfold get_mut_or_create at hok
  cases hact : findSlot (fun q => q.is_active && q.token_index == ti) a.tokens with
  | some ip =>
    rw [hact] at hok
    obtain ⟨i0, p0⟩ := ip
    simp only [Except.ok.injEq, Prod.mk.injEq] at hok
    obtain ⟨ha1, hp, hi⟩ := hok
    subst ha1
    subst hp
    subst hi
    obtain ⟨hget, hpred⟩ := findSlot_spec _ a.tokens i0 p0 hact
    refine ⟨hsafe, ?_, hget⟩
    exact (Bool.and_eq_true_iff.mp hpred).1
  | none =>
    rw [hact] at hok
    cases hina : findSlot (fun q => !q.is_active) a.tokens with
    | some ip =>
      rw [hina] at hok
      obtain ⟨i0, p0⟩ := ip
      simp only [Except.ok.injEq, Prod.mk.injEq] at hok
      obtain ⟨ha1, hp, hi⟩ := hok
      subst hi
      obtain ⟨hget, _⟩ := findSlot_spec _ a.tokens i0 p0 hina
      have hlt : i0 < a.tokens.length := by
        rcases List.getElem?_eq_some.mp hget with ⟨hl, _⟩
        exact hl
      refine ⟨?_, ?_, ?_⟩
      · rw [← ha1]
        intro r hr hrF
        rcases List.mem_or_eq_of_mem_set hr with hr | hr
        · exact hsafe r hr hrF
        · subst hr
          simp at hrF
      · rw [← hp]
      · rw [← ha1, ← hp]
        simpa using List.getElem?_set_self hlt
    | none =>
      rw [hina] at hok
      simp at hok

theorem deactivate_preserves_safe (a : MangoAccount) (i : Nat) (q : TokenPosition)
    (hsafe : deactivationSafe a) (hq : a.tokens[i]? = some q) (hz : q.amount = 0) :
    deactivationSafe (deactivate a i) := by
  unfold deactivate
  rw [hq]
  intro r hr hrF
  rcases List.mem_or_eq_of_mem_set hr with hr | hr
  · exact hsafe r hr hrF
  · subst hr
    exact hz

theorem bank_deposit_ok (b : Bank) (p : TokenPosition) (x : ℚ) (b1 : Bank)
    (p1 : TokenPosition) (act : Bool)
    (hok : b.deposit p x = .ok (b1, p1, act)) :
    p1.is_active = p.is_active ∧ (act = false → p1.amount = 0) := by
  simp only [Bank.deposit] at hok
  split at hok
  · simp at hok
  · split at hok
    · simp at hok
    · simp only [Except.ok.injEq, Prod.mk.injEq] at hok
      obtain ⟨hb, hp, ha⟩ := hok
      subst hp
      refine ⟨rfl, ?_⟩
      intro hfalse
      rw [← ha] at hfalse
      simp only [decide_eq_false_iff_not, not_not] at hfalse
      simpa using hfalse

/-- C3: token_deposit deactivates a slot only when the balance reported by
bank.deposit is exactly zero, so a run of token_deposit never produces an
inactive position with a non-zero scaled amount (given every previously
inactive slot already carried a zero amount). -/
theorem token_deposit_deactivation_safe (st : DepositState) (amount : Nat)
    (st2 : DepositState) (tr : List Event)
    (hsafe : deactivationSafe st.account)
    (hok : token_deposit st amount = (.ok st2, tr)) :
    deactivationSafe st2.account := by
  simp only [token_deposit] at hok
  split at hok
  · simp at hok
  · split at hok
    · simp at hok
    · split at hok
      · simp at hok
      · rename_i acc1 p i hg
        split at hok
        · simp at hok
        · rename_i bank1 p1 act hd
          split at hok
          · simp at hok
          · split at hok
            · simp at hok
            · rename_i hv hh
              simp only [Prod.mk.injEq, Except.ok.injEq] at hok
              obtain ⟨h1, h2⟩ := hok
              subst h1
              obtain ⟨hsafe1, hact, hget⟩ := get_mut_or_create_ok st.account _ acc1 p i hsafe hg
              obtain ⟨hactive1, hzero⟩ := bank_deposit_ok st.bank p _ bank1 p1 act hd
              have hsafe2 : deactivationSafe { acc1 with tokens := acc1.tokens.set i p1 } := by
                intro r hr hrF
                rcases List.mem_or_eq_of_mem_set hr with hr | hr
                · exact hsafe1 r hr hrF
                · subst hr
                  rw [hactive1, hact] at hrF
                  cases hrF
              have hlt : i < acc1.tokens.length := by
                rcases List.getElem?_eq_some.mp hget with ⟨hl, _⟩
                exact hl
              cases act with
              | true => simpa using hsafe2
              | false =>
                have hz : p1.amount = 0 := hzero rfl
                have hget2 :
                    ({ acc1 with tokens := acc1.tokens.set i p1 } :
                      MangoAccount).tokens[i]? = some p1 := by
                  simpa using List.getElem?_set_self (by simpa using hlt)
                have hres := deactivate_preserves_safe _ i p1 hsafe2 hget2 hz
                simpa using hres

/-- A deposit state holding one borrow of 5 units that the deposit repays
exactly, driving the position to zero and deactivating it. -/
def repayDepositState : DepositState :=
  { account := { is_bankrupt := 0, tokens := [⟨0, -5, true⟩] },
    bank := { unitBank with total_borrows := 5 },
    vault := 0, token_account := 10,
    remaining_accounts := [⟨{ unitBank with total_borrows := 5 }, 1⟩] }

/-- The state token_deposit produces from repayDepositState with amount 5. -/
def repayDepositResult : DepositState :=
  { account := { is_bankrupt := 0, tokens := [⟨0, 0, false⟩] },
    bank := unitBank,
    vault := 5, token_account := 5,
    remaining_accounts := [⟨{ unitBank with total_borrows := 5 }, 1⟩] }

/-- Witness for C3: the deactivation-safety theorem applied to the concrete
borrow-repaying run, whose touched slot is deactivated at amount zero. -/
theorem token_deposit_deactivation_safe_witness :
    deactivationSafe repayDepositResult.account :=
  token_deposit_deactivation_safe repayDepositState 5 repayDepositResult
    [.bankDeposit, .transfer, .healthCheck, .deactivate]
    (by simp [deactivationSafe, repayDepositState])
    (by norm_num [token_deposit, repayDepositState, repayDepositResult, get_mut_or_create,
      findSlot, Bank.deposit, compute_health_from_fixed_accounts, compute_health,
      healthSum, healthContribution, nativeUnits, weightFor, findPair, deactivate,
      unitBank, abs])
